import Mathlib

/-!
Verification of the Connect-4 engine (`ai.py`, shared win detection in
`connect4.py`, board constants in `constants.py`).

The board is a numpy array `board[row][col]` (row 0 is the top row); cells
hold `EMPTY = 0`, `PLAYER_PIECE = 1` or `AI_PIECE = 2`.  We embed the board
shallowly as a function `Nat → Nat → Nat`; numpy's `ndarray.copy()` is a deep
copy, so each hypothetical move in the search produces an independent board
value, which the functional embedding reflects directly.

Scores mix Python ints with `±math.inf`, so the search works over
`EInt := WithBot (WithTop ℤ)` (`⊥` = `-inf`, `⊤` = `+inf`).
-/

namespace Connect4

/-- `BOARD_WIDTH` from `constants.py`. -/
def BOARD_WIDTH : Nat := 7

/-- `BOARD_HEIGHT` from `constants.py`. -/
def BOARD_HEIGHT : Nat := 6

/-- `EMPTY` from `constants.py`. -/
def EMPTY : Nat := 0

/-- `PLAYER_PIECE` from `constants.py`. -/
def PLAYER_PIECE : Nat := 1

/-- `AI_PIECE` from `constants.py`. -/
def AI_PIECE : Nat := 2

/-- `WINDOW_LENGTH` from `constants.py`. -/
def WINDOW_LENGTH : Nat := 4

/-- A board: `b row col` is the cell at `board[row][col]` (row 0 on top). -/
def Board := Nat → Nat → Nat

/-- Extended integers modelling Python ints together with `±math.inf`. -/
abbrev EInt := WithBot (WithTop ℤ)

/-- A finite score, as an extended integer. -/
def iE (n : ℤ) : EInt := ((n : WithTop ℤ) : EInt)

/-- `Connect4AI.get_valid_moves` (ai.py line 26):
`[col for col in range(BOARD_WIDTH) if board[0][col] == EMPTY]`. -/
def get_valid_moves (b : Board) : List Nat :=
  (List.range BOARD_WIDTH).filter fun col => b 0 col == EMPTY

/-- `Connect4AI.winning_move` (ai.py lines 47-63): scans all horizontal,
vertical and both diagonal length-4 windows for four cells equal to `piece`.
The four `for` nests become four `any/all` scans joined by `||`, matching the
early-`return True` control flow. -/
def winning_move (b : Board) (piece : Nat) : Bool :=
  ((List.range BOARD_HEIGHT).any fun row =>
    (List.range (BOARD_WIDTH - 3)).any fun col =>
      (List.range WINDOW_LENGTH).all fun i => b row (col + i) == piece) ||
  ((List.range BOARD_WIDTH).any fun col =>
    (List.range (BOARD_HEIGHT - 3)).any fun row =>
      (List.range WINDOW_LENGTH).all fun i => b (row + i) col == piece) ||
  ((List.range (BOARD_HEIGHT - 3)).any fun row =>
    (List.range (BOARD_WIDTH - 3)).any fun col =>
      (List.range WINDOW_LENGTH).all fun i => b (row + i) (col + i) == piece) ||
  ((List.range' 3 (BOARD_HEIGHT - 3)).any fun row =>
    (List.range (BOARD_WIDTH - 3)).any fun col =>
      (List.range WINDOW_LENGTH).all fun i => b (row - i) (col + i) == piece)

/-- `cond3` of `Connect4AI.is_terminal_node` (ai.py line 36):
`all(board[0][col] != EMPTY for col in range(BOARD_WIDTH))`. -/
def board_full (b : Board) : Bool :=
  (List.range BOARD_WIDTH).all fun col => b 0 col != EMPTY

/-- `Connect4AI.is_terminal_node` (ai.py lines 34-37):
`cond1 or cond2 or cond3`. -/
def is_terminal_node (b : Board) : Bool :=
  winning_move b PLAYER_PIECE || winning_move b AI_PIECE || board_full b

/-- `opp_piece` computed in `Connect4AI.evaluate_window` (ai.py line 72). -/
def opp_piece (piece : Nat) : Nat :=
  if piece = AI_PIECE then PLAYER_PIECE else AI_PIECE

/-- `Connect4AI.evaluate_window` (ai.py lines 65-85). -/
def evaluate_window (window : List Nat) (piece : Nat) : Int :=
  let o := opp_piece piece
  let s1 : Int :=
    if window.count piece = 4 then 100
    else if window.count piece = 3 ∧ window.count EMPTY = 1 then 5
    else if window.count piece = 2 ∧ window.count EMPTY = 2 then 2
    else 0
  let s2 : Int := if window.count o = 3 ∧ window.count EMPTY = 1 then -4 else 0
  s1 + s2

/-- `Connect4AI.score_position` (ai.py lines 87-124): center-column bonus plus
`evaluate_window` over every horizontal, vertical and diagonal window. -/
def score_position (b : Board) (piece : Nat) : Int :=
  let center_count :=
    ((List.range BOARD_HEIGHT).map fun row => b row (BOARD_WIDTH / 2)).count piece
  (center_count * 3 : Int) +
  ((List.range BOARD_HEIGHT).map fun row =>
    ((List.range (BOARD_WIDTH - 3)).map fun col =>
      evaluate_window ((List.range WINDOW_LENGTH).map fun i => b row (col + i)) piece).sum).sum +
  ((List.range BOARD_WIDTH).map fun col =>
    ((List.range (BOARD_HEIGHT - 3)).map fun row =>
      evaluate_window ((List.range WINDOW_LENGTH).map fun i => b (row + i) col) piece).sum).sum +
  ((List.range (BOARD_HEIGHT - 3)).map fun row =>
    ((List.range (BOARD_WIDTH - 3)).map fun col =>
      evaluate_window ((List.range WINDOW_LENGTH).map fun i => b (row + i) (col + i)) piece).sum).sum +
  ((List.range (BOARD_HEIGHT - 3)).map fun row =>
    ((List.range' 3 (BOARD_WIDTH - 3)).map fun col =>
      evaluate_window ((List.range WINDOW_LENGTH).map fun i => b (row + i) (col - i)) piece).sum).sum

/-- Scan helper for `get_next_open_row`: first row in `rows` whose cell in
column `col` is `EMPTY`, else `-1`. -/
def findOpenRow (b : Board) (col : Nat) : List Nat → Int
  | [] => -1
  | r :: rs => if b r col == EMPTY then (r : Int) else findOpenRow b col rs

/-- `Connect4AI.get_next_open_row` (ai.py lines 189-192): scans rows
`BOARD_HEIGHT-1, …, 0` and returns the first empty one, else `-1`. -/
def get_next_open_row (b : Board) (col : Nat) : Int :=
  findOpenRow b col (List.range BOARD_HEIGHT).reverse

/-- Python/numpy row indexing: a negative index counts from the end. -/
def pyRow (row : Int) : Int :=
  if row < 0 then (BOARD_HEIGHT : Int) + row else row

/-- `Connect4AI.drop_piece` (ai.py line 203): `board[row][col] = piece`,
as a functional update of the (copied) board it is applied to. -/
def drop_piece (b : Board) (row : Int) (col : Nat) (piece : Nat) : Board :=
  fun r c => if (r : Int) = pyRow row ∧ c = col then piece else b r c

/-- numpy `ndarray.copy()`: a deep copy, yielding an independent board whose
cells agree with the original. -/
def copyBoard (b : Board) : Board := fun r c => b r c

/-- The hypothetical successor board built in each `minimax` loop iteration
(ai.py lines 154-156 and 170-172): `row = get_next_open_row(board, col)`,
`board_copy = board.copy()`, `drop_piece(board_copy, row, col, piece)`. -/
def child (b : Board) (col : Nat) (piece : Nat) : Board :=
  drop_piece (copyBoard b) (get_next_open_row b col) col piece

/-- The base-case result of `minimax` on a terminal board
(ai.py lines 140-146). -/
def terminalScore (b : Board) : Option Nat × EInt :=
  if winning_move b AI_PIECE then (none, iE 100000000)
  else if winning_move b PLAYER_PIECE then (none, iE (-100000000))
  else (none, iE 0)

/-- The maximizing loop of `minimax` (ai.py lines 150-164).  Arguments:
the recursive call `f` (one ply deeper, minimizing), the parent board, the
remaining moves, the current `column`, `value`, `alpha` and `beta`.  An
iteration computes the child's score, updates `column`/`value` on a strictly
greater score, raises `alpha`, and breaks when `alpha >= beta`. -/
def loopMax (f : Board → EInt → EInt → Option Nat × EInt) (b : Board) :
    List Nat → Nat → EInt → EInt → EInt → Nat × EInt
  | [], col, v, _, _ => (col, v)
  | c :: rest, col, v, α, β =>
    let s := (f (child b c AI_PIECE) α β).2
    let col' := if v < s then c else col
    let v' := if v < s then s else v
    let α' := max α v'
    if β ≤ α' then (col', v') else loopMax f b rest col' v' α' β

/-- The minimizing loop of `minimax` (ai.py lines 166-180), symmetric to
`loopMax`: update on a strictly smaller score, lower `beta`, break when
`alpha >= beta`. -/
def loopMin (f : Board → EInt → EInt → Option Nat × EInt) (b : Board) :
    List Nat → Nat → EInt → EInt → EInt → Nat × EInt
  | [], col, v, _, _ => (col, v)
  | c :: rest, col, v, α, β =>
    let s := (f (child b c PLAYER_PIECE) α β).2
    let col' := if s < v then c else col
    let v' := if s < v then s else v
    let β' := min β v'
    if β' ≤ α then (col', v') else loopMin f b rest col' v' α β'

/-- `Connect4AI.minimax` (ai.py lines 126-180).  Recursion is on the depth.
`depth == 0 or is_terminal` is split into the two depth patterns; in the
recursive branch `column` is initialised to `valid_moves[0]` (Python would
raise there on an empty list, which is unreachable: a non-terminal board has
a valid move; `headD 0` totalises that corner). -/
def minimax : Board → Nat → EInt → EInt → Bool → Option Nat × EInt
  | b, 0, _, _, _ =>
    if is_terminal_node b then terminalScore b
    else (none, iE (score_position b AI_PIECE))
  | b, d + 1, α, β, m =>
    if is_terminal_node b then terminalScore b
    else
      let vm := get_valid_moves b
      if m then
        let r := loopMax (fun b' a' b'' => minimax b' d a' b'' false) b vm (vm.headD 0) ⊥ α β
        (some r.1, r.2)
      else
        let r := loopMin (fun b' a' b'' => minimax b' d a' b'' true) b vm (vm.headD 0) ⊤ α β
        (some r.1, r.2)

/-- `Connect4AI.get_best_move` (ai.py lines 205-213): the depth is the
`self.depth` configuration value; the root call is
`minimax(board.copy(), depth, -inf, +inf, True)[0]`. -/
def get_best_move (b : Board) (depth : Nat) : Option Nat :=
  (minimax (copyBoard b) depth ⊥ ⊤ true).1

/-! ### Unpruned reference search

`minimaxN` is the exhaustive minimax over the same tree: same ascending move
order, same strict update rule and `valid_moves[0]` initialisation, but no
`alpha`/`beta` bookkeeping and no break.  Claim C3 compares `minimax` at the
full window `(-inf, +inf)` against it. -/

/-- Maximizing loop of the unpruned search: `T c` is the child score of
column `c`; update on a strictly greater score, never break. -/
def loopMaxN (T : Nat → EInt) : List Nat → Nat → EInt → Nat × EInt
  | [], col, v => (col, v)
  | c :: rest, col, v =>
    if v < T c then loopMaxN T rest c (T c) else loopMaxN T rest col v

/-- Minimizing loop of the unpruned search: update on a strictly smaller
score, never break. -/
def loopMinN (T : Nat → EInt) : List Nat → Nat → EInt → Nat × EInt
  | [], col, v => (col, v)
  | c :: rest, col, v =>
    if T c < v then loopMinN T rest c (T c) else loopMinN T rest col v

/-- Unpruned exhaustive minimax: identical to `minimax` except that the loops
iterate over every valid move with no pruning. -/
def minimaxN : Board → Nat → Bool → Option Nat × EInt
  | b, 0, _ =>
    if is_terminal_node b then terminalScore b
    else (none, iE (score_position b AI_PIECE))
  | b, d + 1, m =>
    if is_terminal_node b then terminalScore b
    else
      let vm := get_valid_moves b
      if m then
        let r := loopMaxN (fun c => (minimaxN (child b c AI_PIECE) d false).2) vm (vm.headD 0) ⊥
        (some r.1, r.2)
      else
        let r := loopMinN (fun c => (minimaxN (child b c PLAYER_PIECE) d true).2) vm (vm.headD 0) ⊤
        (some r.1, r.2)

/-! ### Board-threading variant (claim C7)

`minimaxM` makes the board state flow explicit: every call returns, next to
its result, the board its caller handed it.  Each loop iteration builds its
hypothetical position from a fresh `copyBoard` of the parent board (numpy
`.copy()` is deep), mutates only that copy via `drop_piece`, and hands the
parent board on unchanged — the child's final board is discarded exactly as
Python discards `board_copy`. -/

/-- Maximizing loop of `minimaxM`, threading the parent board through the
iterations and returning it. -/
def loopMaxM (f : Board → EInt → EInt → (Option Nat × EInt) × Board) :
    Board → List Nat → Nat → EInt → EInt → EInt → (Nat × EInt) × Board
  | b, [], col, v, _, _ => ((col, v), b)
  | b, c :: rest, col, v, α, β =>
    let board_copy := drop_piece (copyBoard b) (get_next_open_row b c) c AI_PIECE
    let s := (f board_copy α β).1.2
    let col' := if v < s then c else col
    let v' := if v < s then s else v
    let α' := max α v'
    if β ≤ α' then ((col', v'), b) else loopMaxM f b rest col' v' α' β

/-- Minimizing loop of `minimaxM`. -/
def loopMinM (f : Board → EInt → EInt → (Option Nat × EInt) × Board) :
    Board → List Nat → Nat → EInt → EInt → EInt → (Nat × EInt) × Board
  | b, [], col, v, _, _ => ((col, v), b)
  | b, c :: rest, col, v, α, β =>
    let board_copy := drop_piece (copyBoard b) (get_next_open_row b c) c PLAYER_PIECE
    let s := (f board_copy α β).1.2
    let col' := if s < v then c else col
    let v' := if s < v then s else v
    let β' := min β v'
    if β' ≤ α then ((col', v'), b) else loopMinM f b rest col' v' α β'

/-- `minimax` with the board state made explicit: returns the result together
with the board as the caller sees it after the call. -/
def minimaxM : Board → Nat → EInt → EInt → Bool → (Option Nat × EInt) × Board
  | b, 0, _, _, _ =>
    (if is_terminal_node b then terminalScore b
     else (none, iE (score_position b AI_PIECE)), b)
  | b, d + 1, α, β, m =>
    if is_terminal_node b then (terminalScore b, b)
    else
      let vm := get_valid_moves b
      if m then
        let r := loopMaxM (fun b' a' b'' => minimaxM b' d a' b'' false) b vm (vm.headD 0) ⊥ α β
        ((some r.1.1, r.1.2), r.2)
      else
        let r := loopMinM (fun b' a' b'' => minimaxM b' d a' b'' true) b vm (vm.headD 0) ⊤ α β
        ((some r.1.1, r.1.2), r.2)

/-! ### Fuel-indexed variant (claim C8)

`minimaxFuel` models the raw recursion of the Python code without assuming
termination: it burns one unit of fuel per call and answers `none` when the
fuel runs out.  Claim C8 shows fuel `depth + 1` always suffices, because every
recursive call decreases the depth and the move list is finite. -/

/-- Maximizing loop over fallible child evaluations. -/
def loopMaxF (f : Board → EInt → EInt → Option (Option Nat × EInt)) (b : Board) :
    List Nat → Nat → EInt → EInt → EInt → Option (Nat × EInt)
  | [], col, v, _, _ => some (col, v)
  | c :: rest, col, v, α, β =>
    match f (child b c AI_PIECE) α β with
    | none => none
    | some r =>
      let s := r.2
      let col' := if v < s then c else col
      let v' := if v < s then s else v
      let α' := max α v'
      if β ≤ α' then some (col', v') else loopMaxF f b rest col' v' α' β

/-- Minimizing loop over fallible child evaluations. -/
def loopMinF (f : Board → EInt → EInt → Option (Option Nat × EInt)) (b : Board) :
    List Nat → Nat → EInt → EInt → EInt → Option (Nat × EInt)
  | [], col, v, _, _ => some (col, v)
  | c :: rest, col, v, α, β =>
    match f (child b c PLAYER_PIECE) α β with
    | none => none
    | some r =>
      let s := r.2
      let col' := if s < v then c else col
      let v' := if s < v then s else v
      let β' := min β v'
      if β' ≤ α then some (col', v') else loopMinF f b rest col' v' α β'

/-- `minimax` with an explicit fuel bound on the recursion depth. -/
def minimaxFuel : Nat → Board → Nat → EInt → EInt → Bool → Option (Option Nat × EInt)
  | 0, _, _, _, _, _ => none
  | fuel + 1, b, d, α, β, m =>
    if is_terminal_node b then some (terminalScore b)
    else if d = 0 then some (none, iE (score_position b AI_PIECE))
    else
      let vm := get_valid_moves b
      if m then
        match loopMaxF (fun b' a' b'' => minimaxFuel fuel b' (d - 1) a' b'' false) b vm (vm.headD 0) ⊥ α β with
        | none => none
        | some r => some (some r.1, r.2)
      else
        match loopMinF (fun b' a' b'' => minimaxFuel fuel b' (d - 1) a' b'' true) b vm (vm.headD 0) ⊤ α β with
        | none => none
        | some r => some (some r.1, r.2)

/-! ### Spec-side predicates -/

/-- Spec-side reading of win detection (claim C4): four consecutive cells
equal to `piece` exist along a row, a column, or one of the two diagonal
directions, inside the 6×7 board. -/
def hasRun (b : Board) (piece : Nat) : Prop :=
  (∃ row < BOARD_HEIGHT, ∃ col < BOARD_WIDTH - 3,
    ∀ i < WINDOW_LENGTH, b row (col + i) = piece) ∨
  (∃ col < BOARD_WIDTH, ∃ row < BOARD_HEIGHT - 3,
    ∀ i < WINDOW_LENGTH, b (row + i) col = piece) ∨
  (∃ row < BOARD_HEIGHT - 3, ∃ col < BOARD_WIDTH - 3,
    ∀ i < WINDOW_LENGTH, b (row + i) (col + i) = piece) ∨
  (∃ row, 3 ≤ row ∧ row < BOARD_HEIGHT ∧ ∃ col < BOARD_WIDTH - 3,
    ∀ i < WINDOW_LENGTH, b (row - i) (col + i) = piece)

/-- Exchange the two sides in one cell (claim C6). -/
def swapCell (x : Nat) : Nat :=
  if x = PLAYER_PIECE then AI_PIECE else if x = AI_PIECE then PLAYER_PIECE else x

/-- The board with every `PLAYER_PIECE` and `AI_PIECE` exchanged. -/
def swapBoard (b : Board) : Board := fun r c => swapCell (b r c)

/-! ### Basic facts about extended integers -/

lemma bot_lt_iE (n : ℤ) : (⊥ : EInt) < iE n := WithBot.bot_lt_coe _

lemma iE_lt_top (n : ℤ) : iE n < (⊤ : EInt) :=
  WithBot.coe_lt_coe.mpr (WithTop.coe_lt_top n)

lemma iE_le_iE {m n : ℤ} (h : m ≤ n) : iE m ≤ iE n :=
  WithBot.coe_le_coe.mpr (WithTop.coe_le_coe.mpr h)

lemma max_bot_left (x : EInt) : max (⊥ : EInt) x = x := max_eq_right bot_le

lemma min_top_left (x : EInt) : min (⊤ : EInt) x = x := min_eq_right le_top

lemma max_bot_right (x : EInt) : max x (⊥ : EInt) = x := max_eq_left bot_le

lemma min_top_right (x : EInt) : min x (⊤ : EInt) = x := min_eq_left le_top


/-! ### Valid moves and open rows -/

lemma mem_get_valid_moves {b : Board} {col : Nat} :
    col ∈ get_valid_moves b ↔ col < BOARD_WIDTH ∧ b 0 col = EMPTY := by
  simp [get_valid_moves, List.mem_filter, List.mem_range]

lemma is_terminal_node_false {b : Board} (h : is_terminal_node b = false) :
    winning_move b PLAYER_PIECE = false ∧ winning_move b AI_PIECE = false ∧
      board_full b = false := by
  have h' : (winning_move b PLAYER_PIECE = false ∧ winning_move b AI_PIECE = false) ∧
      board_full b = false := by simpa [is_terminal_node] using h
  exact ⟨h'.1.1, h'.1.2, h'.2⟩

lemma get_valid_moves_ne_nil {b : Board} (h : is_terminal_node b = false) :
    get_valid_moves b ≠ [] := by
  have hfull : board_full b = false := (is_terminal_node_false h).2.2
  simp only [board_full, List.all_eq_false, List.mem_range] at hfull
  obtain ⟨col, hcol, hne⟩ := hfull
  simp only [bne_iff_ne, ne_eq, Decidable.not_not] at hne
  exact List.ne_nil_of_mem (mem_get_valid_moves.mpr ⟨hcol, hne⟩)

lemma get_valid_moves_pairwise (b : Board) :
    (get_valid_moves b).Pairwise (· < ·) :=
  (List.pairwise_lt_range _).filter _

lemma findOpenRow_spec (b : Board) (col : Nat) :
    ∀ l : List Nat, (∀ r ∈ l, r < BOARD_HEIGHT) → (∃ r ∈ l, b r col = EMPTY) →
      ∃ r : Nat, findOpenRow b col l = (r : Int) ∧ r < BOARD_HEIGHT ∧ b r col = EMPTY := by
  intro l
  induction l with
  | nil => rintro _ ⟨r, hr, _⟩; exact absurd hr (List.not_mem_nil r)
  | cons a l ih =>
    intro hlt hex
    by_cases h : b a col = EMPTY
    · exact ⟨a, by simp [findOpenRow, h], hlt a (List.mem_cons_self a l), h⟩
    · obtain ⟨r, hr, hre⟩ := hex
      rcases List.mem_cons.mp hr with rfl | hr'
      · exact absurd hre h
      · obtain ⟨r', h1, h2, h3⟩ := ih (fun x hx => hlt x (List.mem_cons_of_mem _ hx)) ⟨r, hr', hre⟩
        refine ⟨r', ?_, h2, h3⟩
        simpa [findOpenRow, h] using h1

lemma get_next_open_row_spec {b : Board} {col : Nat} (h : b 0 col = EMPTY) :
    ∃ r : Nat, get_next_open_row b col = (r : Int) ∧ r < BOARD_HEIGHT ∧ b r col = EMPTY := by
  refine findOpenRow_spec b col _ ?_ ⟨0, ?_, h⟩
  · intro r hr
    rw [List.mem_reverse, List.mem_range] at hr
    exact hr
  · rw [List.mem_reverse, List.mem_range]
    exact Nat.pos_of_ne_zero (by simp [BOARD_HEIGHT])

/-! ### Bounds on the heuristic evaluation -/

lemma evaluate_window_le (w : List Nat) (p : Nat) : evaluate_window w p ≤ 100 := by
  unfold evaluate_window
  dsimp only
  split_ifs <;> norm_num

lemma neg_four_le_evaluate_window (w : List Nat) (p : Nat) :
    -4 ≤ evaluate_window w p := by
  unfold evaluate_window
  dsimp only
  split_ifs <;> norm_num

lemma sum_map_le {α : Type} (l : List α) (f : α → ℤ) (c : ℤ)
    (h : ∀ x ∈ l, f x ≤ c) : (l.map f).sum ≤ l.length * c := by
  have := List.sum_le_card_nsmul (l.map f) c (by
    intro y hy
    obtain ⟨x, hx, rfl⟩ := List.mem_map.mp hy
    exact h x hx)
  simpa [nsmul_eq_mul] using this

lemma le_sum_map {α : Type} (l : List α) (f : α → ℤ) (c : ℤ)
    (h : ∀ x ∈ l, c ≤ f x) : (l.length : ℤ) * c ≤ (l.map f).sum := by
  have := List.card_nsmul_le_sum (l.map f) c (by
    intro y hy
    obtain ⟨x, hx, rfl⟩ := List.mem_map.mp hy
    exact h x hx)
  simpa [nsmul_eq_mul] using this

lemma score_position_bounds (b : Board) (p : Nat) :
    -100000000 < score_position b p ∧ score_position b p < 100000000 := by
  unfold score_position
  simp only [BOARD_HEIGHT, BOARD_WIDTH, WINDOW_LENGTH, Nat.reduceSub, Nat.reduceDiv]
  have hcenter_le :
      ((((List.range 6).map fun row => b row 3).count p : ℤ)) ≤ 6 := by
    have h1 := List.count_le_length p ((List.range 6).map fun row => b row 3)
    simp only [List.length_map, List.length_range] at h1
    exact_mod_cast h1
  have hcenter_ge :
      (0 : ℤ) ≤ (((List.range 6).map fun row => b row 3).count p : ℤ) :=
    Int.natCast_nonneg _
  have hH : ((List.range 6).map fun row =>
      ((List.range 4).map fun col =>
        evaluate_window ((List.range 4).map fun i => b row (col + i)) p).sum).sum ≤ 2400 := by
    have := sum_map_le (List.range 6) _ 400 (fun row _ => by
      simpa using sum_map_le (List.range 4)
        (fun col => evaluate_window ((List.range 4).map fun i => b row (col + i)) p) 100
        (fun col _ => evaluate_window_le _ _))
    simpa using this
  have hH' : (-96 : ℤ) ≤ ((List.range 6).map fun row =>
      ((List.range 4).map fun col =>
        evaluate_window ((List.range 4).map fun i => b row (col + i)) p).sum).sum := by
    have := le_sum_map (List.range 6) _ (-16) (fun row _ => by
      simpa using le_sum_map (List.range 4)
        (fun col => evaluate_window ((List.range 4).map fun i => b row (col + i)) p) (-4)
        (fun col _ => neg_four_le_evaluate_window _ _))
    simpa using this
  have hV : ((List.range 7).map fun col =>
      ((List.range 3).map fun row =>
        evaluate_window ((List.range 4).map fun i => b (row + i) col) p).sum).sum ≤ 2100 := by
    have := sum_map_le (List.range 7) _ 300 (fun col _ => by
      simpa using sum_map_le (List.range 3)
        (fun row => evaluate_window ((List.range 4).map fun i => b (row + i) col) p) 100
        (fun row _ => evaluate_window_le _ _))
    simpa using this
  have hV' : (-84 : ℤ) ≤ ((List.range 7).map fun col =>
      ((List.range 3).map fun row =>
        evaluate_window ((List.range 4).map fun i => b (row + i) col) p).sum).sum := by
    have := le_sum_map (List.range 7) _ (-12) (fun col _ => by
      simpa using le_sum_map (List.range 3)
        (fun row => evaluate_window ((List.range 4).map fun i => b (row + i) col) p) (-4)
        (fun row _ => neg_four_le_evaluate_window _ _))
    simpa using this
  have hD1 : ((List.range 3).map fun row =>
      ((List.range 4).map fun col =>
        evaluate_window ((List.range 4).map fun i => b (row + i) (col + i)) p).sum).sum ≤ 1200 := by
    have := sum_map_le (List.range 3) _ 400 (fun row _ => by
      simpa using sum_map_le (List.range 4)
        (fun col => evaluate_window ((List.range 4).map fun i => b (row + i) (col + i)) p) 100
        (fun col _ => evaluate_window_le _ _))
    simpa using this
  have hD1' : (-48 : ℤ) ≤ ((List.range 3).map fun row =>
      ((List.range 4).map fun col =>
        evaluate_window ((List.range 4).map fun i => b (row + i) (col + i)) p).sum).sum := by
    have := le_sum_map (List.range 3) _ (-16) (fun row _ => by
      simpa using le_sum_map (List.range 4)
        (fun col => evaluate_window ((List.range 4).map fun i => b (row + i) (col + i)) p) (-4)
        (fun col _ => neg_four_le_evaluate_window _ _))
    simpa using this
  have hD2 : ((List.range 3).map fun row =>
      ((List.range' 3 4).map fun col =>
        evaluate_window ((List.range 4).map fun i => b (row + i) (col - i)) p).sum).sum ≤ 1200 := by
    have := sum_map_le (List.range 3) _ 400 (fun row _ => by
      simpa [List.length_range'] using sum_map_le (List.range' 3 4)
        (fun col => evaluate_window ((List.range 4).map fun i => b (row + i) (col - i)) p) 100
        (fun col _ => evaluate_window_le _ _))
    simpa using this
  have hD2' : (-48 : ℤ) ≤ ((List.range 3).map fun row =>
      ((List.range' 3 4).map fun col =>
        evaluate_window ((List.range 4).map fun i => b (row + i) (col - i)) p).sum).sum := by
    have := le_sum_map (List.range 3) _ (-16) (fun row _ => by
      simpa [List.length_range'] using le_sum_map (List.range' 3 4)
        (fun col => evaluate_window ((List.range 4).map fun i => b (row + i) (col - i)) p) (-4)
        (fun col _ => neg_four_le_evaluate_window _ _))
    simpa using this
  constructor <;> linarith

/-! ### Win detection (claim C4) -/

lemma winning_move_iff_hasRun (b : Board) (p : Nat) :
    winning_move b p = true ↔ hasRun b p := by
  unfold winning_move hasRun
  simp only [Bool.or_eq_true, List.any_eq_true, List.all_eq_true, List.mem_range,
    List.mem_range'_1, beq_iff_eq]
  constructor
  · rintro (((⟨row, hrow, col, hcol, hw⟩ | ⟨col, hcol, row, hrow, hw⟩) |
      ⟨row, hrow, col, hcol, hw⟩) | ⟨row, ⟨hrow3, hrow6⟩, col, hcol, hw⟩)
    · exact Or.inl ⟨row, hrow, col, hcol, hw⟩
    · exact Or.inr (Or.inl ⟨col, hcol, row, hrow, hw⟩)
    · exact Or.inr (Or.inr (Or.inl ⟨row, hrow, col, hcol, hw⟩))
    · exact Or.inr (Or.inr (Or.inr ⟨row, hrow3, by omega, col, hcol, hw⟩))
  · rintro (⟨row, hrow, col, hcol, hw⟩ | ⟨col, hcol, row, hrow, hw⟩ |
      ⟨row, hrow, col, hcol, hw⟩ | ⟨row, hrow3, hrow6, col, hcol, hw⟩)
    · exact Or.inl (Or.inl (Or.inl ⟨row, hrow, col, hcol, hw⟩))
    · exact Or.inl (Or.inl (Or.inr ⟨col, hcol, row, hrow, hw⟩))
    · exact Or.inl (Or.inr ⟨row, hrow, col, hcol, hw⟩)
    · exact Or.inr ⟨row, ⟨hrow3, by omega⟩, col, hcol, hw⟩

/-! ### Side-swap symmetry of the evaluator (claim C6) -/

lemma swapCell_swapCell (x : Nat) : swapCell (swapCell x) = x := by
  unfold swapCell
  split_ifs <;> simp_all [PLAYER_PIECE, AI_PIECE]

lemma swapCell_injective : Function.Injective swapCell := by
  intro a b h
  rw [← swapCell_swapCell a, h, swapCell_swapCell]

lemma count_map_swapCell (w : List Nat) (x : Nat) :
    (w.map swapCell).count (swapCell x) = w.count x :=
  List.count_map_of_injective w swapCell swapCell_injective x

lemma count_map_swapCell_AI (w : List Nat) :
    (w.map swapCell).count AI_PIECE = w.count PLAYER_PIECE := by
  have : AI_PIECE = swapCell PLAYER_PIECE := by decide
  rw [this, count_map_swapCell]

lemma count_map_swapCell_PLAYER (w : List Nat) :
    (w.map swapCell).count PLAYER_PIECE = w.count AI_PIECE := by
  have : PLAYER_PIECE = swapCell AI_PIECE := by decide
  rw [this, count_map_swapCell]

lemma count_map_swapCell_EMPTY (w : List Nat) :
    (w.map swapCell).count EMPTY = w.count EMPTY := by
  have : EMPTY = swapCell EMPTY := by decide
  conv_lhs => rw [this, count_map_swapCell]

lemma evaluate_window_swap_AI (w : List Nat) :
    evaluate_window (w.map swapCell) PLAYER_PIECE = evaluate_window w AI_PIECE := by
  unfold evaluate_window
  simp only [show opp_piece PLAYER_PIECE = AI_PIECE from rfl,
    show opp_piece AI_PIECE = PLAYER_PIECE from rfl,
    count_map_swapCell_AI, count_map_swapCell_PLAYER, count_map_swapCell_EMPTY]

lemma evaluate_window_swap_PLAYER (w : List Nat) :
    evaluate_window (w.map swapCell) AI_PIECE = evaluate_window w PLAYER_PIECE := by
  unfold evaluate_window
  simp only [show opp_piece PLAYER_PIECE = AI_PIECE from rfl,
    show opp_piece AI_PIECE = PLAYER_PIECE from rfl,
    count_map_swapCell_AI, count_map_swapCell_PLAYER, count_map_swapCell_EMPTY]

lemma evaluate_window_swap_fun_AI (hcell : Nat → Nat) (l : List Nat) :
    evaluate_window (l.map fun i => swapCell (hcell i)) PLAYER_PIECE =
      evaluate_window (l.map hcell) AI_PIECE := by
  rw [show (fun i => swapCell (hcell i)) = swapCell ∘ hcell from rfl, ← List.map_map]
  exact evaluate_window_swap_AI _

lemma evaluate_window_swap_fun_PLAYER (hcell : Nat → Nat) (l : List Nat) :
    evaluate_window (l.map fun i => swapCell (hcell i)) AI_PIECE =
      evaluate_window (l.map hcell) PLAYER_PIECE := by
  rw [show (fun i => swapCell (hcell i)) = swapCell ∘ hcell from rfl, ← List.map_map]
  exact evaluate_window_swap_PLAYER _

lemma count_map_swap_fun_AI (hcell : Nat → Nat) (l : List Nat) :
    (l.map fun i => swapCell (hcell i)).count PLAYER_PIECE =
      (l.map hcell).count AI_PIECE := by
  rw [show (fun i => swapCell (hcell i)) = swapCell ∘ hcell from rfl, ← List.map_map]
  exact count_map_swapCell_PLAYER _

lemma count_map_swap_fun_PLAYER (hcell : Nat → Nat) (l : List Nat) :
    (l.map fun i => swapCell (hcell i)).count AI_PIECE =
      (l.map hcell).count PLAYER_PIECE := by
  rw [show (fun i => swapCell (hcell i)) = swapCell ∘ hcell from rfl, ← List.map_map]
  exact count_map_swapCell_AI _

lemma score_position_swap_AI (b : Board) :
    score_position (swapBoard b) PLAYER_PIECE = score_position b AI_PIECE := by
  unfold score_position swapBoard
  rw [count_map_swap_fun_AI]
  simp only [evaluate_window_swap_fun_AI]

lemma score_position_swap_PLAYER (b : Board) :
    score_position (swapBoard b) AI_PIECE = score_position b PLAYER_PIECE := by
  unfold score_position swapBoard
  rw [count_map_swap_fun_PLAYER]
  simp only [evaluate_window_swap_fun_PLAYER]

/-! ### Unfolding lemmas for the search -/

lemma minimax_zero (b : Board) (α β : EInt) (m : Bool) :
    minimax b 0 α β m =
      if is_terminal_node b then terminalScore b
      else (none, iE (score_position b AI_PIECE)) := rfl

lemma minimax_succ_of_terminal {b : Board} (h : is_terminal_node b = true)
    (d : Nat) (α β : EInt) (m : Bool) :
    minimax b (d + 1) α β m = terminalScore b := by
  simp [minimax, h]

lemma minimax_of_terminal {b : Board} (h : is_terminal_node b = true)
    (d : Nat) (α β : EInt) (m : Bool) :
    minimax b d α β m = terminalScore b := by
  cases d with
  | zero => simp [minimax_zero, h]
  | succ d => exact minimax_succ_of_terminal h d α β m

lemma minimax_succ_max {b : Board} (h : is_terminal_node b = false)
    (d : Nat) (α β : EInt) :
    minimax b (d + 1) α β true =
      (some (loopMax (fun b' a' b'' => minimax b' d a' b'' false) b
          (get_valid_moves b) ((get_valid_moves b).headD 0) ⊥ α β).1,
        (loopMax (fun b' a' b'' => minimax b' d a' b'' false) b
          (get_valid_moves b) ((get_valid_moves b).headD 0) ⊥ α β).2) := by
  simp [minimax, h]

lemma minimax_succ_min {b : Board} (h : is_terminal_node b = false)
    (d : Nat) (α β : EInt) :
    minimax b (d + 1) α β false =
      (some (loopMin (fun b' a' b'' => minimax b' d a' b'' true) b
          (get_valid_moves b) ((get_valid_moves b).headD 0) ⊤ α β).1,
        (loopMin (fun b' a' b'' => minimax b' d a' b'' true) b
          (get_valid_moves b) ((get_valid_moves b).headD 0) ⊤ α β).2) := by
  simp [minimax, h]

lemma minimaxN_zero (b : Board) (m : Bool) :
    minimaxN b 0 m =
      if is_terminal_node b then terminalScore b
      else (none, iE (score_position b AI_PIECE)) := rfl

lemma minimaxN_of_terminal {b : Board} (h : is_terminal_node b = true)
    (d : Nat) (m : Bool) :
    minimaxN b d m = terminalScore b := by
  cases d with
  | zero => simp [minimaxN_zero, h]
  | succ d => simp [minimaxN, h]

lemma minimaxN_succ_max {b : Board} (h : is_terminal_node b = false) (d : Nat) :
    minimaxN b (d + 1) true =
      (some (loopMaxN (fun c => (minimaxN (child b c AI_PIECE) d false).2)
          (get_valid_moves b) ((get_valid_moves b).headD 0) ⊥).1,
        (loopMaxN (fun c => (minimaxN (child b c AI_PIECE) d false).2)
          (get_valid_moves b) ((get_valid_moves b).headD 0) ⊥).2) := by
  simp [minimaxN, h]

lemma minimaxN_succ_min {b : Board} (h : is_terminal_node b = false) (d : Nat) :
    minimaxN b (d + 1) false =
      (some (loopMinN (fun c => (minimaxN (child b c PLAYER_PIECE) d true).2)
          (get_valid_moves b) ((get_valid_moves b).headD 0) ⊤).1,
        (loopMinN (fun c => (minimaxN (child b c PLAYER_PIECE) d true).2)
          (get_valid_moves b) ((get_valid_moves b).headD 0) ⊤).2) := by
  simp [minimaxN, h]

lemma winning_move_AI_terminal {b : Board} (h : winning_move b AI_PIECE = true) :
    is_terminal_node b = true := by
  simp [is_terminal_node, h]

lemma winning_move_PLAYER_terminal {b : Board} (h : winning_move b PLAYER_PIECE = true) :
    is_terminal_node b = true := by
  simp [is_terminal_node, h]

lemma board_full_terminal {b : Board} (h : board_full b = true) :
    is_terminal_node b = true := by
  simp [is_terminal_node, h]

/-! ### The board-threading search returns its board unchanged (claim C7) -/

lemma loopMaxM_eq (f : Board → EInt → EInt → (Option Nat × EInt) × Board)
    (g : Board → EInt → EInt → Option Nat × EInt)
    (hfg : ∀ b' α β, f b' α β = (g b' α β, b')) (b : Board) :
    ∀ ms col v α β,
      loopMaxM f b ms col v α β = (loopMax g b ms col v α β, b) := by
  intro ms
  induction ms with
  | nil => intro col v α β; rfl
  | cons c rest ih =>
    intro col v α β
    simp only [loopMaxM, loopMax, child, hfg]
    split <;> split <;> first | rfl | exact ih _ _ _ _

lemma loopMinM_eq (f : Board → EInt → EInt → (Option Nat × EInt) × Board)
    (g : Board → EInt → EInt → Option Nat × EInt)
    (hfg : ∀ b' α β, f b' α β = (g b' α β, b')) (b : Board) :
    ∀ ms col v α β,
      loopMinM f b ms col v α β = (loopMin g b ms col v α β, b) := by
  intro ms
  induction ms with
  | nil => intro col v α β; rfl
  | cons c rest ih =>
    intro col v α β
    simp only [loopMinM, loopMin, child, hfg]
    split <;> split <;> first | rfl | exact ih _ _ _ _

lemma minimaxM_minimax : ∀ (d : Nat) (b : Board) (α β : EInt) (m : Bool),
    minimaxM b d α β m = (minimax b d α β m, b) := by
  intro d
  induction d with
  | zero => intro b α β m; rfl
  | succ d ih =>
    intro b α β m
    by_cases hterm : is_terminal_node b
    · simp [minimaxM, minimax, hterm]
    · cases m
      · have hl := loopMinM_eq _ _ (fun b' α β => ih b' α β true) b
          (get_valid_moves b) ((get_valid_moves b).headD 0) ⊤ α β
        simp only [List.headD_eq_head?_getD] at hl
        simp [minimaxM, minimax, hterm, hl]
      · have hl := loopMaxM_eq _ _ (fun b' α β => ih b' α β false) b
          (get_valid_moves b) ((get_valid_moves b).headD 0) ⊥ α β
        simp only [List.headD_eq_head?_getD] at hl
        simp [minimaxM, minimax, hterm, hl]

/-! ### Fuel-bounded recursion (claim C8) -/

lemma loopMaxF_eq (fF : Board → EInt → EInt → Option (Option Nat × EInt))
    (fP : Board → EInt → EInt → Option Nat × EInt)
    (hf : ∀ b' α β, fF b' α β = some (fP b' α β)) (b : Board) :
    ∀ ms col v α β,
      loopMaxF fF b ms col v α β = some (loopMax fP b ms col v α β) := by
  intro ms
  induction ms with
  | nil => intro col v α β; rfl
  | cons c rest ih =>
    intro col v α β
    simp only [loopMaxF, loopMax, hf]
    split <;> split <;> first | rfl | exact ih _ _ _ _

lemma loopMinF_eq (fF : Board → EInt → EInt → Option (Option Nat × EInt))
    (fP : Board → EInt → EInt → Option Nat × EInt)
    (hf : ∀ b' α β, fF b' α β = some (fP b' α β)) (b : Board) :
    ∀ ms col v α β,
      loopMinF fF b ms col v α β = some (loopMin fP b ms col v α β) := by
  intro ms
  induction ms with
  | nil => intro col v α β; rfl
  | cons c rest ih =>
    intro col v α β
    simp only [loopMinF, loopMin, hf]
    split <;> split <;> first | rfl | exact ih _ _ _ _

lemma minimaxFuel_succ_succ (fuel d : Nat) (b : Board) (α β : EInt) (m : Bool) :
    minimaxFuel (fuel + 1) b (d + 1) α β m =
      if is_terminal_node b then some (terminalScore b)
      else
        let vm := get_valid_moves b
        if m then
          match loopMaxF (fun b' a' b'' => minimaxFuel fuel b' d a' b'' false) b
              vm (vm.headD 0) ⊥ α β with
          | none => none
          | some r => some (some r.1, r.2)
        else
          match loopMinF (fun b' a' b'' => minimaxFuel fuel b' d a' b'' true) b
              vm (vm.headD 0) ⊤ α β with
          | none => none
          | some r => some (some r.1, r.2) := rfl

lemma minimaxFuel_minimax : ∀ (d : Nat) (b : Board) (α β : EInt) (m : Bool),
    minimaxFuel (d + 1) b d α β m = some (minimax b d α β m) := by
  intro d
  induction d with
  | zero =>
    intro b α β m
    by_cases hterm : is_terminal_node b <;> simp [minimaxFuel, minimax_zero, hterm]
  | succ d ih =>
    intro b α β m
    rw [minimaxFuel_succ_succ]
    by_cases hterm : is_terminal_node b
    · simp [hterm, minimax_succ_of_terminal hterm]
    · have hterm' : is_terminal_node b = false := by simpa using hterm
      cases m
      · have hl := loopMinF_eq _ _ (fun b' α β => ih b' α β true) b
          (get_valid_moves b) ((get_valid_moves b).headD 0) ⊤ α β
        simp only [hterm', if_false, Bool.false_eq_true]
        rw [hl, minimax_succ_min hterm']
      · have hl := loopMaxF_eq _ _ (fun b' α β => ih b' α β false) b
          (get_valid_moves b) ((get_valid_moves b).headD 0) ⊥ α β
        simp only [hterm', if_false, if_true]
        rw [hl, minimax_succ_max hterm']
        simp

/-! ### Value of the unpruned loops

`vN T ms v` (resp. `wN`) is the running maximum (resp. minimum) computed by
the unpruned loop from initial value `v` over the child scores `T`. -/

def vN (T : Nat → EInt) : List Nat → EInt → EInt
  | [], v => v
  | c :: rest, v => vN T rest (max v (T c))

def wN (T : Nat → EInt) : List Nat → EInt → EInt
  | [], v => v
  | c :: rest, v => wN T rest (min v (T c))

lemma loopMaxN_snd (T : Nat → EInt) :
    ∀ ms col v, (loopMaxN T ms col v).2 = vN T ms v := by
  intro ms
  induction ms with
  | nil => intro col v; rfl
  | cons c rest ih =>
    intro col v
    by_cases h : v < T c
    · simp [loopMaxN, vN, h, ih, max_eq_right h.le]
    · simp [loopMaxN, vN, h, ih, max_eq_left (not_lt.mp h)]

lemma loopMinN_snd (T : Nat → EInt) :
    ∀ ms col v, (loopMinN T ms col v).2 = wN T ms v := by
  intro ms
  induction ms with
  | nil => intro col v; rfl
  | cons c rest ih =>
    intro col v
    by_cases h : T c < v
    · simp [loopMinN, wN, h, ih, min_eq_right h.le]
    · simp [loopMinN, wN, h, ih, min_eq_left (not_lt.mp h)]

lemma le_vN (T : Nat → EInt) : ∀ ms v, v ≤ vN T ms v := by
  intro ms
  induction ms with
  | nil => intro v; exact le_rfl
  | cons c rest ih => intro v; exact (le_max_left v (T c)).trans (ih _)

lemma wN_le (T : Nat → EInt) : ∀ ms v, wN T ms v ≤ v := by
  intro ms
  induction ms with
  | nil => intro v; exact le_rfl
  | cons c rest ih => intro v; exact (ih _).trans (min_le_left v (T c))

lemma vN_mono (T : Nat → EInt) : ∀ ms {v w}, v ≤ w → vN T ms v ≤ vN T ms w := by
  intro ms
  induction ms with
  | nil => intro v w h; exact h
  | cons c rest ih => intro v w h; exact ih (max_le_max h le_rfl)

lemma wN_mono (T : Nat → EInt) : ∀ ms {v w}, v ≤ w → wN T ms v ≤ wN T ms w := by
  intro ms
  induction ms with
  | nil => intro v w h; exact h
  | cons c rest ih => intro v w h; exact ih (min_le_min h le_rfl)

lemma vN_init (T : Nat → EInt) : ∀ ms v, vN T ms v = max v (vN T ms ⊥) := by
  intro ms
  induction ms with
  | nil => intro v; simp [vN, max_eq_left bot_le]
  | cons c rest ih =>
    intro v
    show vN T rest (max v (T c)) = max v (vN T rest (max ⊥ (T c)))
    rw [ih (max v (T c)), max_bot_left, ih (T c), max_assoc]

lemma wN_init (T : Nat → EInt) : ∀ ms v, wN T ms v = min v (wN T ms ⊤) := by
  intro ms
  induction ms with
  | nil => intro v; simp [wN, min_eq_left le_top]
  | cons c rest ih =>
    intro v
    show wN T rest (min v (T c)) = min v (wN T rest (min ⊤ (T c)))
    rw [ih (min v (T c)), min_top_left, ih (T c), min_assoc]

lemma T_le_vN (T : Nat → EInt) : ∀ ms v w, w ∈ ms → T w ≤ vN T ms v := by
  intro ms
  induction ms with
  | nil => intro v w hw; exact absurd hw (List.not_mem_nil w)
  | cons c rest ih =>
    intro v w hw
    rcases List.mem_cons.mp hw with rfl | hw'
    · exact (le_max_right v (T w)).trans (le_vN T rest _)
    · exact ih _ w hw'

lemma wN_le_T (T : Nat → EInt) : ∀ ms v w, w ∈ ms → wN T ms v ≤ T w := by
  intro ms
  induction ms with
  | nil => intro v w hw; exact absurd hw (List.not_mem_nil w)
  | cons c rest ih =>
    intro v w hw
    rcases List.mem_cons.mp hw with rfl | hw'
    · exact (wN_le T rest _).trans (min_le_right v (T w))
    · exact ih _ w hw'

lemma vN_le_of_le (T : Nat → EInt) (K : EInt) :
    ∀ ms v, (∀ c ∈ ms, T c ≤ K) → v ≤ K → vN T ms v ≤ K := by
  intro ms
  induction ms with
  | nil => intro v _ hv; exact hv
  | cons c rest ih =>
    intro v hT hv
    exact ih _ (fun x hx => hT x (List.mem_cons_of_mem _ hx))
      (max_le hv (hT c (List.mem_cons_self c rest)))

lemma le_wN_of_le (T : Nat → EInt) (K : EInt) :
    ∀ ms v, (∀ c ∈ ms, K ≤ T c) → K ≤ v → K ≤ wN T ms v := by
  intro ms
  induction ms with
  | nil => intro v _ hv; exact hv
  | cons c rest ih =>
    intro v hT hv
    exact ih _ (fun x hx => hT x (List.mem_cons_of_mem _ hx))
      (le_min hv (hT c (List.mem_cons_self c rest)))

/-! ### Boundedness of all search scores -/

lemma terminalScore_bounds (b : Board) :
    iE (-100000000) ≤ (terminalScore b).2 ∧ (terminalScore b).2 ≤ iE 100000000 := by
  unfold terminalScore
  split_ifs <;> exact ⟨iE_le_iE (by norm_num), iE_le_iE (by norm_num)⟩

lemma loopMax_cases (f : Board → EInt → EInt → Option Nat × EInt) (b : Board)
    (hf : ∀ b' α β, iE (-100000000) ≤ (f b' α β).2 ∧ (f b' α β).2 ≤ iE 100000000) :
    ∀ ms col v α β, (loopMax f b ms col v α β).2 = v ∨
      (iE (-100000000) ≤ (loopMax f b ms col v α β).2 ∧
        (loopMax f b ms col v α β).2 ≤ iE 100000000) := by
  intro ms
  induction ms with
  | nil => intro col v α β; exact Or.inl rfl
  | cons c rest ih =>
    intro col v α β
    have hs := hf (child b c AI_PIECE) α β
    by_cases hup : v < (f (child b c AI_PIECE) α β).2
    · simp only [loopMax, hup, if_true]
      split
      · exact Or.inr hs
      · rcases ih c (f (child b c AI_PIECE) α β).2 (max α (f (child b c AI_PIECE) α β).2) β with h | h
        · refine Or.inr ?_; rw [h]; exact hs
        · exact Or.inr h
    · simp only [loopMax, hup, if_false]
      split
      · exact Or.inl rfl
      · exact ih col v _ β

lemma loopMin_cases (f : Board → EInt → EInt → Option Nat × EInt) (b : Board)
    (hf : ∀ b' α β, iE (-100000000) ≤ (f b' α β).2 ∧ (f b' α β).2 ≤ iE 100000000) :
    ∀ ms col v α β, (loopMin f b ms col v α β).2 = v ∨
      (iE (-100000000) ≤ (loopMin f b ms col v α β).2 ∧
        (loopMin f b ms col v α β).2 ≤ iE 100000000) := by
  intro ms
  induction ms with
  | nil => intro col v α β; exact Or.inl rfl
  | cons c rest ih =>
    intro col v α β
    have hs := hf (child b c PLAYER_PIECE) α β
    by_cases hup : (f (child b c PLAYER_PIECE) α β).2 < v
    · simp only [loopMin, hup, if_true]
      split
      · exact Or.inr hs
      · rcases ih c (f (child b c PLAYER_PIECE) α β).2 α (min β (f (child b c PLAYER_PIECE) α β).2) with h | h
        · refine Or.inr ?_; rw [h]; exact hs
        · exact Or.inr h
    · simp only [loopMin, hup, if_false]
      split
      · exact Or.inl rfl
      · exact ih col v α _

lemma minimax_bounds : ∀ (d : Nat) (b : Board) (α β : EInt) (m : Bool),
    iE (-100000000) ≤ (minimax b d α β m).2 ∧ (minimax b d α β m).2 ≤ iE 100000000 := by
  intro d
  induction d with
  | zero =>
    intro b α β m
    rw [minimax_zero]
    split
    · exact terminalScore_bounds b
    · have := score_position_bounds b AI_PIECE
      exact ⟨iE_le_iE (by linarith [this.1]), iE_le_iE (by linarith [this.2])⟩
  | succ d ih =>
    intro b α β m
    by_cases hterm : is_terminal_node b
    · rw [minimax_succ_of_terminal hterm]
      exact terminalScore_bounds b
    · have hterm' : is_terminal_node b = false := by simpa using hterm
      obtain ⟨c, rest, hvm⟩ :=
        List.exists_cons_of_ne_nil (get_valid_moves_ne_nil hterm')
      cases m
      · rw [minimax_succ_min hterm', hvm]
        have hf : ∀ b' a' b'', iE (-100000000) ≤ (minimax b' d a' b'' true).2 ∧
            (minimax b' d a' b'' true).2 ≤ iE 100000000 := fun b' a' b'' => ih b' a' b'' true
        have hs := hf (child b c PLAYER_PIECE) α β
        have hlt : (minimax (child b c PLAYER_PIECE) d α β true).2 < (⊤ : EInt) :=
          lt_of_le_of_lt hs.2 (iE_lt_top _)
        simp only [loopMin, hlt, if_true]
        split
        · exact hs
        · rcases loopMin_cases _ b hf rest c
            (minimax (child b c PLAYER_PIECE) d α β true).2 α _ with h | h
          · rw [h]; exact hs
          · exact h
      · rw [minimax_succ_max hterm', hvm]
        have hf : ∀ b' a' b'', iE (-100000000) ≤ (minimax b' d a' b'' false).2 ∧
            (minimax b' d a' b'' false).2 ≤ iE 100000000 := fun b' a' b'' => ih b' a' b'' false
        have hs := hf (child b c AI_PIECE) α β
        have hlt : (⊥ : EInt) < (minimax (child b c AI_PIECE) d α β false).2 :=
          lt_of_lt_of_le (bot_lt_iE _) hs.1
        simp only [loopMax, hlt, if_true]
        split
        · exact hs
        · rcases loopMax_cases _ b hf rest c
            (minimax (child b c AI_PIECE) d α β false).2 _ β with h | h
          · rw [h]; exact hs
          · exact h

/-! ### Fail-soft alpha-beta relation

`FS α β x y` relates the score `x` returned by the pruned search inside the
window `(α, β)` to the score `y` of the unpruned search: inside the window
they agree; a fail-low `x` is an upper bound on `y`; a fail-high `x` is a
lower bound on `y`. -/

def FS (α β x y : EInt) : Prop :=
  (x ≤ α → y ≤ x) ∧ (β ≤ x → x ≤ y) ∧ (α < x → x < β → x = y)

lemma FS_refl (α β x : EInt) : FS α β x x :=
  ⟨fun _ => le_rfl, fun _ => le_rfl, fun _ _ => rfl⟩

lemma loopMax_FS (f : Board → EInt → EInt → Option Nat × EInt) (T : Nat → EInt)
    (b : Board)
    (hFS : ∀ c α β, α < β → FS α β (f (child b c AI_PIECE) α β).2 (T c)) :
    ∀ ms col v α₀ β, max α₀ v < β →
      FS α₀ β (loopMax f b ms col v (max α₀ v) β).2 (vN T ms v) := by
  intro ms
  induction ms with
  | nil => intro col v α₀ β _; exact FS_refl α₀ β v
  | cons c rest ih =>
    intro col v α₀ β hAB
    have hα₀β : α₀ < β := (le_max_left α₀ v).trans_lt hAB
    have hFSc := hFS c (max α₀ v) β hAB
    simp only [loopMax, vN]
    by_cases hup : v < (f (child b c AI_PIECE) (max α₀ v) β).2
    · simp only [hup, if_true]
      set s := (f (child b c AI_PIECE) (max α₀ v) β).2 with hs_def
      have hα : max (max α₀ v) s = max α₀ s := by
        rw [max_assoc, max_eq_right hup.le]
      rw [hα]
      by_cases hbk : β ≤ max α₀ s
      · rw [if_pos hbk]
        have hβs : β ≤ s := by
          rcases le_max_iff.mp hbk with h | h
          · exact absurd h (not_le.mpr hα₀β)
          · exact h
        refine ⟨fun h => absurd (hα₀β.trans_le (hβs.trans h)) (lt_irrefl α₀), fun _ => ?_,
          fun _ hlt => absurd hβs (not_le.mpr hlt)⟩
        exact (hFSc.2.1 hβs).trans (T_le_vN T (c :: rest) v c (List.mem_cons_self c rest))
      · rw [if_neg hbk]
        have hαsβ : max α₀ s < β := not_le.mp hbk
        have hsβ : s < β := (le_max_right α₀ s).trans_lt hαsβ
        have ihr := ih c s α₀ β hαsβ
        by_cases hsA : s ≤ max α₀ v
        · have hsα : s ≤ α₀ := by
            rcases le_max_iff.mp hsA with h | h
            · exact h
            · exact absurd hup (not_lt.mpr h)
          have hTc : T c ≤ s := hFSc.1 hsA
          have h1 : vN T rest s = max s (vN T rest ⊥) := vN_init T rest s
          have h2 : vN T rest (max v (T c)) = max (max v (T c)) (vN T rest ⊥) :=
            vN_init T rest _
          have hM : max v (T c) ≤ s := max_le hup.le hTc
          refine ⟨fun h => ?_, fun h => ?_, fun h1' h2' => ?_⟩
          · have := ihr.1 h
            rw [h1] at this
            rw [h2]
            exact (max_le_max hM le_rfl).trans this
          · have hLs := ihr.2.1 h
            rw [h1] at hLs
            have hsL : s < (loopMax f b rest c s (max α₀ s) β).2 :=
              lt_of_lt_of_le hsβ h
            rw [h2]
            rcases le_max_iff.mp hLs with h' | h'
            · exact absurd hsL (not_lt.mpr h')
            · exact h'.trans (le_max_right _ _)
          · have hLeq := ihr.2.2 h1' h2'
            rw [h1] at hLeq
            have hsL : s < (loopMax f b rest c s (max α₀ s) β).2 :=
              lt_of_le_of_lt hsα h1'
            rcases max_choice s (vN T rest ⊥) with h' | h'
            · rw [h'] at hLeq
              exact absurd hLeq (ne_of_gt hsL)
            · rw [h'] at hLeq
              rw [h2, max_eq_right ((hM.trans hsL.le).trans hLeq.le)]
              exact hLeq
        · have hsw : max α₀ v < s := not_le.mp hsA
          have hTc : s = T c := hFSc.2.2 hsw hsβ
          have hmvTc : max v (T c) = s := by rw [← hTc]; exact max_eq_right hup.le
          rw [hmvTc]
          exact ihr
    · simp only [hup, if_false]
      have hsv : (f (child b c AI_PIECE) (max α₀ v) β).2 ≤ v := not_lt.mp hup
      have hα : max (max α₀ v) v = max α₀ v := max_eq_left (le_max_right α₀ v)
      rw [hα, if_neg (not_le.mpr hAB)]
      have hTc : T c ≤ v :=
        ((hFSc.1 (hsv.trans (le_max_right α₀ v)))).trans hsv
      rw [max_eq_left hTc]
      exact ih col v α₀ β hAB

lemma loopMin_FS (f : Board → EInt → EInt → Option Nat × EInt) (T : Nat → EInt)
    (b : Board)
    (hFS : ∀ c α β, α < β → FS α β (f (child b c PLAYER_PIECE) α β).2 (T c)) :
    ∀ ms col v α β₀, α < min β₀ v →
      FS α β₀ (loopMin f b ms col v α (min β₀ v)).2 (wN T ms v) := by
  intro ms
  induction ms with
  | nil => intro col v α β₀ _; exact FS_refl α β₀ v
  | cons c rest ih =>
    intro col v α β₀ hAB
    have hαβ₀ : α < β₀ := hAB.trans_le (min_le_left β₀ v)
    have hFSc := hFS c α (min β₀ v) hAB
    simp only [loopMin, wN]
    by_cases hup : (f (child b c PLAYER_PIECE) α (min β₀ v)).2 < v
    · simp only [hup, if_true]
      set s := (f (child b c PLAYER_PIECE) α (min β₀ v)).2 with hs_def
      have hβ : min (min β₀ v) s = min β₀ s := by
        rw [min_assoc, min_eq_right hup.le]
      rw [hβ]
      by_cases hbk : min β₀ s ≤ α
      · rw [if_pos hbk]
        have hsα : s ≤ α := by
          rcases min_le_iff.mp hbk with h | h
          · exact absurd h (not_le.mpr hαβ₀)
          · exact h
        refine ⟨fun _ => ?_, fun h => absurd ((h.trans hsα).trans_lt hαβ₀) (lt_irrefl β₀),
          fun hlt _ => absurd hsα (not_le.mpr hlt)⟩
        exact (wN_le_T T (c :: rest) v c (List.mem_cons_self c rest)).trans (hFSc.1 hsα)
      · rw [if_neg hbk]
        have hαβs : α < min β₀ s := not_le.mp hbk
        have hαs : α < s := hαβs.trans_le (min_le_right β₀ s)
        have ihr := ih c s α β₀ hαβs
        by_cases hsB : min β₀ v ≤ s
        · have hβ₀s : β₀ ≤ s := by
            rcases min_le_iff.mp hsB with h | h
            · exact h
            · exact absurd hup (not_lt.mpr h)
          have hTc : s ≤ T c := hFSc.2.1 hsB
          have h1 : wN T rest s = min s (wN T rest ⊤) := wN_init T rest s
          have h2 : wN T rest (min v (T c)) = min (min v (T c)) (wN T rest ⊤) :=
            wN_init T rest _
          have hM : s ≤ min v (T c) := le_min hup.le hTc
          refine ⟨fun h => ?_, fun h => ?_, fun h1' h2' => ?_⟩
          · have hLs := ihr.1 h
            rw [h1] at hLs
            have hsL : (loopMin f b rest c s α (min β₀ s)).2 < s :=
              lt_of_le_of_lt h hαs
            rw [h2]
            rcases min_le_iff.mp hLs with h' | h'
            · exact absurd hsL (not_lt.mpr h')
            · exact (min_le_right _ _).trans h'
          · have hL := ihr.2.1 h
            rw [h1] at hL
            have hLs := le_min_iff.mp hL
            rw [h2]
            exact le_min (hLs.1.trans hM) hLs.2
          · have hLeq := ihr.2.2 h1' h2'
            rw [h1] at hLeq
            have hsL : (loopMin f b rest c s α (min β₀ s)).2 < s :=
              lt_of_lt_of_le h2' hβ₀s
            rcases min_choice s (wN T rest ⊤) with h' | h'
            · rw [h'] at hLeq
              exact absurd hLeq (ne_of_lt hsL)
            · rw [h'] at hLeq
              have hR : wN T rest ⊤ ≤ min v (T c) := (hLeq ▸ hsL).le.trans hM
              rw [h2, min_eq_right hR]
              exact hLeq
        · have hsw : s < min β₀ v := not_le.mp hsB
          have hTc : s = T c := hFSc.2.2 hαs hsw
          have hmvTc : min v (T c) = s := by rw [← hTc]; exact min_eq_right hup.le
          rw [hmvTc]
          exact ihr
    · simp only [hup, if_false]
      have hsv : v ≤ (f (child b c PLAYER_PIECE) α (min β₀ v)).2 := not_lt.mp hup
      have hβ : min (min β₀ v) v = min β₀ v := min_eq_left (min_le_right β₀ v)
      rw [hβ, if_neg (not_le.mpr hAB)]
      have hTc : v ≤ T c :=
        hsv.trans (hFSc.2.1 ((min_le_right β₀ v).trans hsv))
      rw [min_eq_left hTc]
      exact ih col v α β₀ hAB

lemma minimax_FS : ∀ (d : Nat) (b : Board) (α β : EInt) (m : Bool), α < β →
    FS α β (minimax b d α β m).2 (minimaxN b d m).2 := by
  intro d
  induction d with
  | zero =>
    intro b α β m _
    rw [minimax_zero, minimaxN_zero]
    exact FS_refl α β _
  | succ d ih =>
    intro b α β m hαβ
    by_cases hterm : is_terminal_node b
    · rw [minimax_of_terminal hterm, minimaxN_of_terminal hterm]
      exact FS_refl α β _
    · have hterm' : is_terminal_node b = false := by simpa using hterm
      cases m
      · rw [minimax_succ_min hterm', minimaxN_succ_min hterm' d]
        simp only
        rw [loopMinN_snd]
        have hFSc : ∀ c α' β', α' < β' →
            FS α' β' ((fun b' a' b'' => minimax b' d a' b'' true)
              (child b c PLAYER_PIECE) α' β').2
              ((fun c => (minimaxN (child b c PLAYER_PIECE) d true).2) c) :=
          fun c α' β' h => ih (child b c PLAYER_PIECE) α' β' true h
        have := loopMin_FS (fun b' a' b'' => minimax b' d a' b'' true)
          (fun c => (minimaxN (child b c PLAYER_PIECE) d true).2) b hFSc
          (get_valid_moves b) ((get_valid_moves b).headD 0) ⊤ α β
          (by rw [min_top_right]; exact hαβ)
        rwa [min_top_right] at this
      · rw [minimax_succ_max hterm', minimaxN_succ_max hterm' d]
        simp only
        rw [loopMaxN_snd]
        have hFSc : ∀ c α' β', α' < β' →
            FS α' β' ((fun b' a' b'' => minimax b' d a' b'' false)
              (child b c AI_PIECE) α' β').2
              ((fun c => (minimaxN (child b c AI_PIECE) d false).2) c) :=
          fun c α' β' h => ih (child b c AI_PIECE) α' β' false h
        have := loopMax_FS (fun b' a' b'' => minimax b' d a' b'' false)
          (fun c => (minimaxN (child b c AI_PIECE) d false).2) b hFSc
          (get_valid_moves b) ((get_valid_moves b).headD 0) ⊥ α β
          (by rw [max_bot_right]; exact hαβ)
        rwa [max_bot_right] at this

/-! ### Pruning equivalence at the root (claim C3)

At the root window `(-inf, +inf)` the alpha-beta loop keeps `alpha` equal to
its running best value and never breaks (all scores are bounded by the win
sentinel), and by the fail-soft relation every update decision and updated
value coincides with the unpruned loop. -/

lemma loopMax_root (f : Board → EInt → EInt → Option Nat × EInt) (T : Nat → EInt)
    (b : Board)
    (hFS : ∀ c α β, α < β → FS α β (f (child b c AI_PIECE) α β).2 (T c))
    (hfb : ∀ c α β, (f (child b c AI_PIECE) α β).2 ≤ iE 100000000) :
    ∀ ms col v, v ≤ iE 100000000 →
      loopMax f b ms col v v ⊤ = loopMaxN T ms col v := by
  intro ms
  induction ms with
  | nil => intro col v _; rfl
  | cons c rest ih =>
    intro col v hv
    have hvtop : v < (⊤ : EInt) := lt_of_le_of_lt hv (iE_lt_top _)
    have hFSc := hFS c v ⊤ hvtop
    have hstop : (f (child b c AI_PIECE) v ⊤).2 < (⊤ : EInt) :=
      lt_of_le_of_lt (hfb c v ⊤) (iE_lt_top _)
    simp only [loopMax, loopMaxN]
    by_cases hup : v < (f (child b c AI_PIECE) v ⊤).2
    · have hTeq : (f (child b c AI_PIECE) v ⊤).2 = T c := hFSc.2.2 hup hstop
      have hupN : v < T c := hTeq ▸ hup
      rw [if_pos hupN]
      simp only [hup, if_true]
      rw [max_eq_right hup.le, if_neg (not_le.mpr hstop), ← hTeq]
      exact ih c _ (hfb c v ⊤)
    · have hTc : T c ≤ v := (hFSc.1 (not_lt.mp hup)).trans (not_lt.mp hup)
      have hupN : ¬ v < T c := not_lt.mpr hTc
      rw [if_neg hupN]
      simp only [hup, if_false]
      rw [max_self, if_neg (not_le.mpr hvtop)]
      exact ih col v hv

lemma loopMin_root (f : Board → EInt → EInt → Option Nat × EInt) (T : Nat → EInt)
    (b : Board)
    (hFS : ∀ c α β, α < β → FS α β (f (child b c PLAYER_PIECE) α β).2 (T c))
    (hfb : ∀ c α β, iE (-100000000) ≤ (f (child b c PLAYER_PIECE) α β).2) :
    ∀ ms col v, iE (-100000000) ≤ v →
      loopMin f b ms col v ⊥ v = loopMinN T ms col v := by
  intro ms
  induction ms with
  | nil => intro col v _; rfl
  | cons c rest ih =>
    intro col v hv
    have hvbot : (⊥ : EInt) < v := lt_of_lt_of_le (bot_lt_iE _) hv
    have hFSc := hFS c ⊥ v hvbot
    have hsbot : (⊥ : EInt) < (f (child b c PLAYER_PIECE) ⊥ v).2 :=
      lt_of_lt_of_le (bot_lt_iE _) (hfb c ⊥ v)
    simp only [loopMin, loopMinN]
    by_cases hup : (f (child b c PLAYER_PIECE) ⊥ v).2 < v
    · have hTeq : (f (child b c PLAYER_PIECE) ⊥ v).2 = T c := hFSc.2.2 hsbot hup
      have hupN : T c < v := hTeq ▸ hup
      rw [if_pos hupN]
      simp only [hup, if_true]
      rw [min_eq_right hup.le, if_neg (not_le.mpr hsbot), ← hTeq]
      exact ih c _ (hfb c ⊥ v)
    · have hTc : v ≤ T c := (not_lt.mp hup).trans' (le_refl v) |>.trans (hFSc.2.1 (not_lt.mp hup))
      have hupN : ¬ T c < v := not_lt.mpr hTc
      rw [if_neg hupN]
      simp only [hup, if_false]
      rw [min_self, if_neg (not_le.mpr hvbot)]
      exact ih col v hv

lemma minimax_eq_minimaxN : ∀ (d : Nat) (b : Board) (m : Bool),
    minimax b d ⊥ ⊤ m = minimaxN b d m := by
  intro d b m
  cases d with
  | zero => rfl
  | succ d =>
    by_cases hterm : is_terminal_node b
    · rw [minimax_of_terminal hterm, minimaxN_of_terminal hterm]
    · have hterm' : is_terminal_node b = false := by simpa using hterm
      cases m
      · rw [minimax_succ_min hterm', minimaxN_succ_min hterm' d]
        have hroot := loopMin_root (fun b' a' b'' => minimax b' d a' b'' true)
          (fun c => (minimaxN (child b c PLAYER_PIECE) d true).2) b
          (fun c α' β' h => minimax_FS d (child b c PLAYER_PIECE) α' β' true h)
          (fun c α' β' => (minimax_bounds d (child b c PLAYER_PIECE) α' β' true).1)
          (get_valid_moves b) ((get_valid_moves b).headD 0) ⊤ le_top
        rw [hroot]
      · rw [minimax_succ_max hterm', minimaxN_succ_max hterm' d]
        have hroot := loopMax_root (fun b' a' b'' => minimax b' d a' b'' false)
          (fun c => (minimaxN (child b c AI_PIECE) d false).2) b
          (fun c α' β' h => minimax_FS d (child b c AI_PIECE) α' β' false h)
          (fun c α' β' => (minimax_bounds d (child b c AI_PIECE) α' β' false).2)
          (get_valid_moves b) ((get_valid_moves b).headD 0) ⊥ bot_le
        rw [hroot]

/-! ### The chosen column is legal (claim C1) -/

lemma loopMax_col (f : Board → EInt → EInt → Option Nat × EInt) (b : Board) :
    ∀ ms col v α β, (loopMax f b ms col v α β).1 = col ∨
      (loopMax f b ms col v α β).1 ∈ ms := by
  intro ms
  induction ms with
  | nil => intro col v α β; exact Or.inl rfl
  | cons c rest ih =>
    intro col v α β
    simp only [loopMax]
    by_cases hup : v < (f (child b c AI_PIECE) α β).2
    · simp only [hup, if_true]
      split
      · exact Or.inr (List.mem_cons_self c rest)
      · rcases ih c _ _ β with h | h
        · refine Or.inr ?_; rw [h]; exact List.mem_cons_self c rest
        · exact Or.inr (List.mem_cons_of_mem c h)
    · simp only [hup, if_false]
      split
      · exact Or.inl rfl
      · rcases ih col v _ β with h | h
        · exact Or.inl h
        · exact Or.inr (List.mem_cons_of_mem c h)

lemma get_best_move_mem {b : Board} {d : Nat} (hd : 1 ≤ d)
    (hterm : is_terminal_node b = false) :
    ∃ c, get_best_move b d = some c ∧ c ∈ get_valid_moves b := by
  obtain ⟨d', rfl⟩ : ∃ d', d = d' + 1 := ⟨d - 1, by omega⟩
  obtain ⟨c0, rest, hvm⟩ := List.exists_cons_of_ne_nil (get_valid_moves_ne_nil hterm)
  have hcopy : copyBoard b = b := rfl
  unfold get_best_move
  rw [hcopy, minimax_succ_max hterm d']
  refine ⟨_, rfl, ?_⟩
  rcases loopMax_col (fun b' a' b'' => minimax b' d' a' b'' false) b
    (get_valid_moves b) ((get_valid_moves b).headD 0) ⊥ ⊥ ⊤ with h | h
  · rw [h, hvm]
    exact List.mem_cons_self c0 rest
  · exact h

/-! ### An immediate win is never overlooked (claim C2) -/

lemma terminalScore_AI {b : Board} (h : winning_move b AI_PIECE = true) :
    terminalScore b = (none, iE 100000000) := by
  simp [terminalScore, h]

lemma terminalScore_PLAYER {b : Board} (hA : winning_move b AI_PIECE = false)
    (hP : winning_move b PLAYER_PIECE = true) :
    terminalScore b = (none, iE (-100000000)) := by
  simp [terminalScore, hA, hP]

lemma terminalScore_draw {b : Board} (hA : winning_move b AI_PIECE = false)
    (hP : winning_move b PLAYER_PIECE = false) :
    terminalScore b = (none, iE 0) := by
  simp [terminalScore, hA, hP]

lemma loopMaxN_stay (T : Nat → EInt) :
    ∀ ms col, (∀ c ∈ ms, T c ≤ iE 100000000) →
      loopMaxN T ms col (iE 100000000) = (col, iE 100000000) := by
  intro ms
  induction ms with
  | nil => intro col _; rfl
  | cons c rest ih =>
    intro col hT
    rw [loopMaxN, if_neg (not_lt.mpr (hT c (List.mem_cons_self c rest)))]
    exact ih col fun x hx => hT x (List.mem_cons_of_mem c hx)

lemma loopMaxN_win (T : Nat → EInt) :
    ∀ ms col v, ms.Pairwise (· < ·) → (∀ c ∈ ms, T c ≤ iE 100000000) →
      v < iE 100000000 → (∃ w ∈ ms, T w = iE 100000000) →
      (loopMaxN T ms col v).2 = iE 100000000 ∧ (loopMaxN T ms col v).1 ∈ ms ∧
        T (loopMaxN T ms col v).1 = iE 100000000 ∧
        ∀ w ∈ ms, T w = iE 100000000 → (loopMaxN T ms col v).1 ≤ w := by
  intro ms
  induction ms with
  | nil => rintro col v _ _ _ ⟨w, hw, _⟩; exact absurd hw (List.not_mem_nil w)
  | cons c rest ih =>
    intro col v hpw hT hv hex
    by_cases hTc : T c = iE 100000000
    · have hup : v < T c := hTc ▸ hv
      rw [loopMaxN, if_pos hup, hTc,
        loopMaxN_stay T rest c (fun x hx => hT x (List.mem_cons_of_mem c hx))]
      refine ⟨rfl, List.mem_cons_self c rest, hTc, ?_⟩
      intro w hw hTw
      rcases List.mem_cons.mp hw with rfl | hw'
      · exact le_refl w
      · exact (List.rel_of_pairwise_cons hpw hw').le
    · obtain ⟨w, hw, hTw⟩ := hex
      have hwrest : w ∈ rest := by
        rcases List.mem_cons.mp hw with rfl | hw'
        · exact absurd hTw hTc
        · exact hw'
      have hTrest : ∀ x ∈ rest, T x ≤ iE 100000000 :=
        fun x hx => hT x (List.mem_cons_of_mem c hx)
      have hpwrest : rest.Pairwise (· < ·) := hpw.of_cons
      by_cases hup : v < T c
      · have hv' : T c < iE 100000000 :=
          lt_of_le_of_ne (hT c (List.mem_cons_self c rest)) hTc
        rw [loopMaxN, if_pos hup]
        obtain ⟨h1, h2, h3, h4⟩ := ih c (T c) hpwrest hTrest hv' ⟨w, hwrest, hTw⟩
        refine ⟨h1, List.mem_cons_of_mem c h2, h3, ?_⟩
        intro x hx hTx
        rcases List.mem_cons.mp hx with rfl | hx'
        · exact absurd hTx hTc
        · exact h4 x hx' hTx
      · rw [loopMaxN, if_neg hup]
        obtain ⟨h1, h2, h3, h4⟩ := ih col v hpwrest hTrest hv ⟨w, hwrest, hTw⟩
        refine ⟨h1, List.mem_cons_of_mem c h2, h3, ?_⟩
        intro x hx hTx
        rcases List.mem_cons.mp hx with rfl | hx'
        · exact absurd hTx hTc
        · exact h4 x hx' hTx

lemma immediate_win_helper {b : Board} {d w : Nat} (hd : 1 ≤ d)
    (hterm : is_terminal_node b = false) (hw : w ∈ get_valid_moves b)
    (hwin : winning_move (child b w AI_PIECE) AI_PIECE = true) :
    ∃ c, get_best_move b d = some c ∧ c ∈ get_valid_moves b ∧ c ≤ w ∧
      (minimaxN (child b c AI_PIECE) (d - 1) false).2 = iE 100000000 := by
  obtain ⟨d', rfl⟩ : ∃ d', d = d' + 1 := ⟨d - 1, by omega⟩
  have hcopy : copyBoard b = b := rfl
  have hT : ∀ c ∈ get_valid_moves b,
      (minimaxN (child b c AI_PIECE) d' false).2 ≤ iE 100000000 := by
    intro c _
    rw [← minimax_eq_minimaxN]
    exact (minimax_bounds d' (child b c AI_PIECE) ⊥ ⊤ false).2
  have hTw : (minimaxN (child b w AI_PIECE) d' false).2 = iE 100000000 := by
    rw [minimaxN_of_terminal (winning_move_AI_terminal hwin) d' false,
      terminalScore_AI hwin]
  obtain ⟨h1, h2, h3, h4⟩ := loopMaxN_win
    (fun c => (minimaxN (child b c AI_PIECE) d' false).2)
    (get_valid_moves b) ((get_valid_moves b).headD 0) ⊥
    (get_valid_moves_pairwise b) hT (bot_lt_iE _) ⟨w, hw, hTw⟩
  refine ⟨_, ?_, h2, h4 w hw hTw, ?_⟩
  · unfold get_best_move
    rw [hcopy, minimax_eq_minimaxN, minimaxN_succ_max hterm d']
  · simpa using h3

/-! ### Concrete boards for witnesses and counterexamples -/

/-- The empty 6×7 board. -/
def emptyBoard : Board := fun _ _ => EMPTY

/-- A planted horizontal run of exactly four AI pieces (bottom row, cols 0-3). -/
def plantedRun4 : Board := fun r c => if r = 5 ∧ c < 4 then AI_PIECE else EMPTY

/-- A maximal horizontal run of three AI pieces (bottom row, cols 0-2). -/
def plantedRun3 : Board := fun r c => if r = 5 ∧ c < 3 then AI_PIECE else EMPTY

/-- A single AI piece in the centre column. -/
def centerPieceBoard : Board := fun r c => if r = 5 ∧ c = 3 then AI_PIECE else EMPTY

/-- AI has three pieces stacked in column 0 (a vertical win in one move);
the player has two pieces in column 5. -/
def winInOneBoard : Board := fun r c =>
  if c = 0 ∧ 3 ≤ r then AI_PIECE
  else if c = 5 ∧ 4 ≤ r then PLAYER_PIECE else EMPTY

/-- Both sides hold a four-in-a-row at once (not reachable in play, but the
classifier must resolve it deterministically). -/
def bothWinBoard : Board := fun r c =>
  if r = 5 ∧ c < 4 then AI_PIECE
  else if r = 0 ∧ c < 4 then PLAYER_PIECE else EMPTY

/-! ### Claim theorems -/

/-- C1, counterexample to the claim as stated: on the (non-terminal) empty
board, an engine configured with `depth = 0` returns `None` from
`get_best_move`, which is not a member of `get_valid_moves` — the claim fails
without a positive-depth assumption. -/
theorem c1_counterexample :
    is_terminal_node emptyBoard = false ∧ get_valid_moves emptyBoard ≠ [] ∧
      get_best_move emptyBoard 0 = none := by
  refine ⟨by decide, by decide, by decide⟩

/-- C1 (amended with `depth ≥ 1`): for every non-terminal board and every
search depth at least 1, `get_best_move` returns a column that is a member of
`get_valid_moves`. -/
theorem c1_best_move_valid (b : Board) (d : Nat) (hd : 1 ≤ d)
    (hterm : is_terminal_node b = false) :
    ∃ c, get_best_move b d = some c ∧ c ∈ get_valid_moves b :=
  get_best_move_mem hd hterm

theorem c1_best_move_valid_witness :
    (1 ≤ 1 ∧ is_terminal_node emptyBoard = false) ∧
      ∃ c, get_best_move emptyBoard 1 = some c ∧ c ∈ get_valid_moves emptyBoard :=
  ⟨⟨le_refl 1, by decide⟩, c1_best_move_valid emptyBoard 1 (le_refl 1) (by decide)⟩

/-- C2: if some legal move `w` of the mover (`AI_PIECE`) immediately yields a
board on which `winning_move` holds for the mover, then at any depth ≥ 1
`get_best_move` returns a column `c ≤ w` that is legal and whose subtree value
is the winning sentinel `+100000000` — the engine never overlooks an
immediate win, up to the first-strictly-better tie-break. -/
theorem c2_immediate_win (b : Board) (d w : Nat) (hd : 1 ≤ d)
    (hterm : is_terminal_node b = false) (hw : w ∈ get_valid_moves b)
    (hwin : winning_move (child b w AI_PIECE) AI_PIECE = true) :
    ∃ c, get_best_move b d = some c ∧ c ∈ get_valid_moves b ∧ c ≤ w ∧
      (minimaxN (child b c AI_PIECE) (d - 1) false).2 = iE 100000000 :=
  immediate_win_helper hd hterm hw hwin

theorem c2_immediate_win_witness :
    (1 ≤ 1 ∧ is_terminal_node winInOneBoard = false ∧
      0 ∈ get_valid_moves winInOneBoard ∧
      winning_move (child winInOneBoard 0 AI_PIECE) AI_PIECE = true) ∧
      ∃ c, get_best_move winInOneBoard 1 = some c ∧
        c ∈ get_valid_moves winInOneBoard ∧ c ≤ 0 ∧
        (minimaxN (child winInOneBoard c AI_PIECE) (1 - 1) false).2 = iE 100000000 :=
  ⟨⟨le_refl 1, by decide, by decide, by decide⟩,
    c2_immediate_win winInOneBoard 1 0 (le_refl 1) (by decide) (by decide) (by decide)⟩

/-- C3: for every board and depth, the column chosen by the root call
`minimax(board, depth, -inf, +inf, True)` equals the column chosen by the
unpruned exhaustive minimax `minimaxN` over the same tree with the same
ascending move order and strict update rule — alpha-beta pruning never
changes the decision. -/
theorem c3_pruning_equivalence (b : Board) (d : Nat) :
    (minimax b d ⊥ ⊤ true).1 = (minimaxN b d true).1 := by
  rw [minimax_eq_minimaxN]

/-- C4: `winning_move b piece` holds iff four consecutive cells equal to
`piece` exist along a row, column or one of the two diagonal directions
(`hasRun`); in particular a planted run of exactly four is detected and a
maximal run of three is not. -/
theorem c4_win_detection :
    (∀ (b : Board) (piece : Nat), winning_move b piece = true ↔ hasRun b piece) ∧
      winning_move plantedRun4 AI_PIECE = true ∧
      winning_move plantedRun3 AI_PIECE = false :=
  ⟨winning_move_iff_hasRun, by decide, by decide⟩

/-- C5: the base case of `minimax` returns `(None, +100000000)` whenever the
mover (`AI_PIECE`) has a connection — also when both sides are connected at
once, the mover's win being checked first — else `(None, -100000000)` when
the opponent has one, else `(None, 0)` when the board is full, and at depth 0
on an undecided board `(None, score_position(board, AI_PIECE))`. -/
theorem c5_base_case (b : Board) (d : Nat) (α β : EInt) (m : Bool) :
    (winning_move b AI_PIECE = true → minimax b d α β m = (none, iE 100000000)) ∧
    (winning_move b AI_PIECE = false → winning_move b PLAYER_PIECE = true →
      minimax b d α β m = (none, iE (-100000000))) ∧
    (winning_move b AI_PIECE = false → winning_move b PLAYER_PIECE = false →
      board_full b = true → minimax b d α β m = (none, iE 0)) ∧
    (is_terminal_node b = false →
      minimax b 0 α β m = (none, iE (score_position b AI_PIECE))) := by
  refine ⟨fun h => ?_, fun hA hP => ?_, fun hA hP hF => ?_, fun h => ?_⟩
  · rw [minimax_of_terminal (winning_move_AI_terminal h), terminalScore_AI h]
  · rw [minimax_of_terminal (winning_move_PLAYER_terminal hP), terminalScore_PLAYER hA hP]
  · rw [minimax_of_terminal (board_full_terminal hF), terminalScore_draw hA hP]
  · rw [minimax_zero, if_neg (by simp [h])]

theorem c5_base_case_witness :
    minimax plantedRun4 3 ⊥ ⊤ true = (none, iE 100000000) ∧
      minimax bothWinBoard 2 ⊥ ⊤ false = (none, iE 100000000) ∧
      minimax emptyBoard 0 ⊥ ⊤ true = (none, iE (score_position emptyBoard AI_PIECE)) :=
  ⟨(c5_base_case plantedRun4 3 ⊥ ⊤ true).1 (by decide),
    (c5_base_case bothWinBoard 2 ⊥ ⊤ false).1 (by decide),
    (c5_base_case emptyBoard 0 ⊥ ⊤ true).2.2.2 (by decide)⟩

/-- C6, counterexample to the claim as stated: with a single AI piece in the
centre column, both `score_position(board, AI)` and
`score_position(swapped board, PLAYER)` equal `3`, so the first is not the
negation of the second. -/
theorem c6_counterexample :
    ¬ (score_position centerPieceBoard AI_PIECE =
        -(score_position (swapBoard centerPieceBoard) PLAYER_PIECE)) := by decide

/-- C6 (amended: equality instead of negation): swapping the two sides'
pieces everywhere and swapping the side being scored leaves
`score_position` unchanged. -/
theorem c6_swap_symmetry (b : Board) :
    score_position b AI_PIECE = score_position (swapBoard b) PLAYER_PIECE ∧
      score_position b PLAYER_PIECE = score_position (swapBoard b) AI_PIECE :=
  ⟨(score_position_swap_AI b).symm, (score_position_swap_PLAYER b).symm⟩

/-- C7: `minimax` leaves the board it is given unchanged — in the
state-threading model `minimaxM`, where every hypothetical piece is placed on
a fresh copy (numpy `.copy()` is deep) and the parent board is handed through
the loop, the call returns the caller's board identically and computes the
same result as `minimax`. -/
theorem c7_frame (b : Board) (d : Nat) (α β : EInt) (m : Bool) :
    (minimaxM b d α β m).2 = b ∧ (minimaxM b d α β m).1 = minimax b d α β m := by
  rw [minimaxM_minimax]
  exact ⟨rfl, rfl⟩

/-- C8: `minimax` terminates: the fuel-indexed recursion `minimaxFuel`, which
burns one unit of fuel per call and fails on exhaustion, always succeeds with
fuel `depth + 1` and computes `minimax` — each recursive call decreases the
depth and the move list is finite. -/
theorem c8_termination (b : Board) (d : Nat) (α β : EInt) (m : Bool) :
    minimaxFuel (d + 1) b d α β m = some (minimax b d α β m) :=
  minimaxFuel_minimax d b α β m

/-- C9: for every board and piece the heuristic `score_position` is strictly
below the win sentinel in absolute value: `|score_position b piece| < 10^8`. -/
theorem c9_heuristic_bounded (b : Board) (piece : Nat) :
    |score_position b piece| < 100000000 := by
  rcases score_position_bounds b piece with ⟨h1, h2⟩
  rw [abs_lt]
  exact ⟨h1, h2⟩

/-- C10: when the recursive branch of `minimax` is reached (positive depth,
non-terminal board), `get_valid_moves` is non-empty so `valid_moves[0]` is
defined, and for every valid column `get_next_open_row` returns a row index
in `[0, BOARD_HEIGHT)` whose cell is `EMPTY` — never `-1`. -/
theorem c10_safety (b : Board) (d : Nat) (hd : 0 < d)
    (hterm : is_terminal_node b = false) :
    get_valid_moves b ≠ [] ∧
      ∀ col ∈ get_valid_moves b,
        0 ≤ get_next_open_row b col ∧
          get_next_open_row b col < (BOARD_HEIGHT : Int) ∧
          b (get_next_open_row b col).toNat col = EMPTY := by
  refine ⟨get_valid_moves_ne_nil hterm, ?_⟩
  intro col hcol
  obtain ⟨r, hr, hlt, he⟩ := get_next_open_row_spec (mem_get_valid_moves.mp hcol).2
  rw [hr]
  refine ⟨Int.natCast_nonneg r, ?_, ?_⟩
  · exact_mod_cast hlt
  · rw [Int.toNat_natCast]
    exact he

theorem c10_safety_witness :
    (0 < 1 ∧ is_terminal_node emptyBoard = false) ∧
      (get_valid_moves emptyBoard ≠ [] ∧
        ∀ col ∈ get_valid_moves emptyBoard,
          0 ≤ get_next_open_row emptyBoard col ∧
            get_next_open_row emptyBoard col < (BOARD_HEIGHT : Int) ∧
            emptyBoard (get_next_open_row emptyBoard col).toNat col = EMPTY) :=
  ⟨⟨Nat.one_pos, by decide⟩, c10_safety emptyBoard 1 Nat.one_pos (by decide)⟩

end Connect4
